import Mathlib

/-!
Formal model of the bellman-examples repository: the field-constant helper
(src/lib.rs), the cube-relation circuit (src/bin/cube.rs) and the
hash-relation pipeline (src/bin/hash.rs).  External capabilities — the
constraint-system engine, the SHA-256 hash, base64 and the bit-packing
routine — are modelled at their interface boundary (spec §6).
-/

/-! ## Field-Constant Helper (src/lib.rs, `get_constant`) -/

/-- Translation of `get_constant` (src/lib.rs): start from the additive
identity and add the multiplicative identity `scalar` times. -/
def get_constant (F : Type) [Zero F] [One F] [Add F] : Nat → F
  | 0 => 0
  | n + 1 => get_constant F n + 1

/-! ## Constraint-system model (spec §6 interface; bellman `ConstraintSystem`) -/

/-- Variables of the constraint system: bellman's `Variable` is an input or
an auxiliary index; input 0 is the fixed `ONE` input. -/
inductive Var where
  | input : Nat → Var
  | aux : Nat → Var
deriving DecidableEq

/-- `CS::one()`: the fixed input variable of index 0. -/
def csOne : Var := Var.input 0

/-- A linear combination: variables with coefficients. -/
abbrev LC (F : Type) := List (Var × F)

/-- bellman's `SynthesisError` case raised by the circuits. -/
inductive SynthErr where
  | assignmentMissing
deriving DecidableEq

/-- Outcome taxonomy of a synthesis run: a propagated synthesis error, or a
Rust panic (`Option::unwrap` on `None`). -/
inductive CubeErr where
  | panicked
  | synth : SynthErr → CubeErr
deriving DecidableEq

/-- The constraint-system capability at its interface (spec §6): allocate a
private or a public variable from a lazily invoked value provider, and
enforce an `A * B = C` constraint. -/
structure CSops (F : Type) (σ : Type) where
  alloc : σ → (Unit → Except SynthErr F) → Except SynthErr (Var × σ)
  allocInput : σ → (Unit → Except SynthErr F) → Except SynthErr (Var × σ)
  enforce : σ → LC F → LC F → LC F → σ

/-- Shape of a constraint system: the allocation counters and the enforced
constraints (the view trusted setup records). -/
structure Shape (F : Type) where
  numInputs : Nat
  numAux : Nat
  constraints : List (LC F × LC F × LC F)
deriving DecidableEq

/-- Setup-mode constraint system: value providers are never invoked; only
the shape is recorded. -/
def shapeOps (F : Type) : CSops F (Shape F) :=
  ⟨fun s _ => .ok (Var.aux s.numAux, ⟨s.numInputs, s.numAux + 1, s.constraints⟩),
   fun s _ => .ok (Var.input s.numInputs, ⟨s.numInputs + 1, s.numAux, s.constraints⟩),
   fun s a b c => ⟨s.numInputs, s.numAux, s.constraints ++ [(a, b, c)]⟩⟩

/-- Initial shape: the `ONE` input is pre-allocated. -/
def initShape (F : Type) : Shape F := ⟨1, 0, []⟩

/-- Proving-mode constraint-system state: the shape plus the assignments
given to the allocated variables. -/
structure Proving (F : Type) where
  shape : Shape F
  inputAssignments : List F
  auxAssignments : List F
deriving DecidableEq

/-- Proving-mode constraint system: every value provider is invoked at
allocation time and a missing assignment aborts synthesis. -/
def provingOps (F : Type) : CSops F (Proving F) :=
  ⟨fun s f =>
    match f () with
    | .error e => .error e
    | .ok v => .ok (Var.aux s.shape.numAux,
        ⟨⟨s.shape.numInputs, s.shape.numAux + 1, s.shape.constraints⟩,
         s.inputAssignments, s.auxAssignments ++ [v]⟩),
   fun s f =>
    match f () with
    | .error e => .error e
    | .ok v => .ok (Var.input s.shape.numInputs,
        ⟨⟨s.shape.numInputs + 1, s.shape.numAux, s.shape.constraints⟩,
         s.inputAssignments ++ [v], s.auxAssignments⟩),
   fun s a b c =>
    ⟨⟨s.shape.numInputs, s.shape.numAux, s.shape.constraints ++ [(a, b, c)]⟩,
     s.inputAssignments, s.auxAssignments⟩⟩

/-- Initial proving state: the `ONE` input carries the value one. -/
def initProving (F : Type) [One F] : Proving F := ⟨initShape F, [1], []⟩

/-! ## Cube-relation circuit (src/bin/cube.rs, `CubeCircuit::synthesize`) -/

/-- Rust's `Option::ok_or(SynthesisError::AssignmentMissing)` as a value
provider closure. -/
def okOr {F : Type} (o : Option F) : Unit → Except SynthErr F :=
  fun _ =>
    match o with
    | some v => .ok v
    | none => .error .assignmentMissing

/-- The z2 value computation of `CubeCircuit::synthesize`:
`z1_val.map(|mut e| { e.mul_assign(&x_val.unwrap()); e })`.  The closure
passed to `map` runs only when `z1_val` is present; `x_val.unwrap()` panics
when `x_val` is absent. -/
def z2ValStep {F : Type} [Mul F] (z1_val x_val : Option F) : Except CubeErr (Option F) :=
  match z1_val with
  | none => .ok none
  | some e =>
    match x_val with
    | some x => .ok (some (e * x))
    | none => .error .panicked

/-- The value provider of the public variable `y`:
`z2_val.ok_or(..)?` plus `x_val.ok_or(..)?` plus the constant. -/
def yProvider {F : Type} [Add F] (z2_val x_val : Option F) (c : F) : Unit → Except SynthErr F :=
  fun _ =>
    match z2_val with
    | none => .error .assignmentMissing
    | some t =>
      match x_val with
      | none => .error .assignmentMissing
      | some u => .ok (t + u + c)

/-- Propagate a synthesis error of the constraint system (the `?` operator). -/
def liftSynth {α : Type} : Except SynthErr α → Except CubeErr α
  | .ok v => .ok v
  | .error e => .error (.synth e)

/-- Translation of `CubeCircuit::synthesize` (src/bin/cube.rs): allocate
`x`, `z1 = x*x`, `z2 = z1*x` and the public `y = z2 + x + 5`, enforcing
`x*x = z1`, `z1*x = z2` and `(z2 + x + 5)*1 = y`, with the constant built
by `get_constant`. -/
def cubeSynthesize {F σ : Type} [Zero F] [One F] [Add F] [Mul F]
    (ops : CSops F σ) (x_val : Option F) (s0 : σ) : Except CubeErr σ := do
  let (x, s1) ← liftSynth (ops.alloc s0 (okOr x_val))
  let z1_val := x_val.map fun e => e * e
  let (z1, s2) ← liftSynth (ops.alloc s1 (okOr z1_val))
  let s3 := ops.enforce s2 [(x, 1)] [(x, 1)] [(z1, 1)]
  let z2_val ← z2ValStep z1_val x_val
  let (z2, s4) ← liftSynth (ops.alloc s3 (okOr z2_val))
  let s5 := ops.enforce s4 [(z1, 1)] [(x, 1)] [(z2, 1)]
  let c := get_constant F 5
  let (y, s6) ← liftSynth (ops.allocInput s5 (yProvider z2_val x_val c))
  let s7 := ops.enforce s6 [(z2, 1), (x, 1), (csOne, c)] [(csOne, 1)] [(y, 1)]
  pure s7

/-- The three constraints of the cube circuit, with `x, z1, z2` the
auxiliary variables 0, 1, 2 and `y` the public input after `ONE`. -/
def cubeConstraints (F : Type) [Zero F] [One F] [Add F] : List (LC F × LC F × LC F) :=
  [([(Var.aux 0, 1)], [(Var.aux 0, 1)], [(Var.aux 1, 1)]),
   ([(Var.aux 1, 1)], [(Var.aux 0, 1)], [(Var.aux 2, 1)]),
   ([(Var.aux 2, 1), (Var.aux 0, 1), (csOne, get_constant F 5)], [(csOne, 1)],
    [(Var.input 1, 1)])]

/-- The constraint-system shape the cube circuit produces. -/
def cubeShape (F : Type) [Zero F] [One F] [Add F] : Shape F := ⟨2, 3, cubeConstraints F⟩

/-! ## Chunking (Rust `slice::chunks(n)`) -/

/-- Rust's `slice::chunks(n)`: consecutive chunks of `n` elements, the last
chunk possibly shorter.  `chunks(0)` panics in Rust and is never used. -/
def chunksOf {α : Type} (n : Nat) : List α → List (List α)
  | [] => []
  | x :: xs =>
    if n = 0 then []
    else (x :: xs).take n :: chunksOf n (xs.drop (n - 1))
termination_by l => l.length
decreasing_by simp [List.length_drop]; omega

/-! ## Double-Hash Gadget (src/bin/hash.rs, `sha256d`) -/

/-- The inline `chunks(8).map(|c| c.iter().rev()).flatten()` expression used
twice in `sha256d`: reverse the order inside every 8-element group. -/
def revEach8 {α : Type} (l : List α) : List α := ((chunksOf 8 l).map List.reverse).flatten

/-- Translation of `sha256d` (src/bin/hash.rs), with the external SHA-256
boolean gadget abstracted as a function on bit sequences: reverse bits in
every byte group, hash, hash again, reverse bits in every byte group. -/
def sha256d (sha : List Bool → List Bool) (data : List Bool) : List Bool :=
  let input := revEach8 data
  let mid := sha input
  let res := sha mid
  revEach8 res

/-- The specification's description of the bit-order correction: reverse the
bit order within every 8-bit group. -/
def reverseBitsInBytes : List Bool → List Bool
  | b0 :: b1 :: b2 :: b3 :: b4 :: b5 :: b6 :: b7 :: rest =>
      b7 :: b6 :: b5 :: b4 :: b3 :: b2 :: b1 :: b0 :: reverseBitsInBytes rest
  | l => l

/-! ## Hash-relation circuit bit decomposition (src/bin/hash.rs,
`HashCircuit::synthesize`) -/

/-- Translation of the `bit_values` computation in `HashCircuit::synthesize`:
decompose each byte of the 80-byte witness into bits via
`(byte >> i) & 1u8 == 1u8` for `i` in `0..8`, or produce 640 unassigned
values when the witness is absent. -/
def bit_values (preimage : Option (List Nat)) : List (Option Bool) :=
  match preimage with
  | some p =>
      ((p.map fun byte => (List.range 8).map fun i => decide ((byte >>> i) &&& 1 = 1)).flatten).map
        some
  | none => List.replicate (80 * 8) none

/-- Each element of `bit_values` becomes exactly one `AllocatedBit::alloc`
call during synthesis. -/
def hashCircuitBitAllocs (preimage : Option (List Nat)) : Nat := (bit_values preimage).length

/-! ## SHA-256 (modelled external capability: the `sha2` crate) -/

/-- Truncate to 32 bits. -/
def w32 (x : Nat) : Nat := x % 4294967296

/-- 32-bit right rotation. -/
def rotr32 (n x : Nat) : Nat := w32 ((x >>> n) ||| (x <<< (32 - n)))

/-- SHA-256 `Ch`. -/
def shaCh (x y z : Nat) : Nat := (x &&& y) ^^^ ((x ^^^ 4294967295) &&& z)

/-- SHA-256 `Maj`. -/
def shaMaj (x y z : Nat) : Nat := (x &&& y) ^^^ (x &&& z) ^^^ (y &&& z)

/-- SHA-256 `Σ0`. -/
def bigSigma0 (x : Nat) : Nat := rotr32 2 x ^^^ rotr32 13 x ^^^ rotr32 22 x

/-- SHA-256 `Σ1`. -/
def bigSigma1 (x : Nat) : Nat := rotr32 6 x ^^^ rotr32 11 x ^^^ rotr32 25 x

/-- SHA-256 `σ0`. -/
def smallSigma0 (x : Nat) : Nat := rotr32 7 x ^^^ rotr32 18 x ^^^ (x >>> 3)

/-- SHA-256 `σ1`. -/
def smallSigma1 (x : Nat) : Nat := rotr32 17 x ^^^ rotr32 19 x ^^^ (x >>> 10)

/-- The 64 SHA-256 round constants. -/
def K256 : List Nat :=
  [1116352408, 1899447441, 3049323471, 3921009573, 961987163, 1508970993, 2453635748, 2870763221,
   3624381080, 310598401, 607225278, 1426881987, 1925078388, 2162078206, 2614888103, 3248222580,
   3835390401, 4022224774, 264347078, 604807628, 770255983, 1249150122, 1555081692, 1996064986,
   2554220882, 2821834349, 2952996808, 3210313671, 3336571891, 3584528711, 113926993, 338241895,
   666307205, 773529912, 1294757372, 1396182291, 1695183700, 1986661051, 2177026350, 2456956037,
   2730485921, 2820302411, 3259730800, 3345764771, 3516065817, 3600352804, 4094571909, 275423344,
   430227734, 506948616, 659060556, 883997877, 958139571, 1322822218, 1537002063, 1747873779,
   1955562222, 2024104815, 2227730452, 2361852424, 2428436474, 2756734187, 3204031479, 3329325298]

/-- The eight 32-bit working values of the SHA-256 compression function. -/
structure Digest8 where
  a : Nat
  b : Nat
  c : Nat
  d : Nat
  e : Nat
  f : Nat
  g : Nat
  h : Nat

/-- The SHA-256 initial hash value. -/
def initH : Digest8 :=
  ⟨1779033703, 3144134277, 1013904242, 2773480762, 1359893119, 2600822924, 528734635, 1541459225⟩

/-- Big-endian 32-bit words from bytes. -/
def beWords : List Nat → List Nat
  | b0 :: b1 :: b2 :: b3 :: rest =>
      (b0 * 16777216 + b1 * 65536 + b2 * 256 + b3) :: beWords rest
  | _ => []

/-- One message-schedule extension step. -/
def scheduleStep (w : List Nat) : List Nat :=
  w ++ [w32 (smallSigma1 (w.getD (w.length - 2) 0) + w.getD (w.length - 7) 0 +
    smallSigma0 (w.getD (w.length - 15) 0) + w.getD (w.length - 16) 0)]

/-- The 64-word message schedule of one block. -/
def msgSchedule (block : List Nat) : List Nat :=
  (List.range 48).foldl (fun w _ => scheduleStep w) (beWords block)

/-- One SHA-256 round. -/
def compressStep (s : Digest8) (kw : Nat × Nat) : Digest8 :=
  let t1 := w32 (s.h + bigSigma1 s.e + shaCh s.e s.f s.g + kw.1 + kw.2)
  let t2 := w32 (bigSigma0 s.a + shaMaj s.a s.b s.c)
  ⟨w32 (t1 + t2), s.a, s.b, s.c, w32 (s.d + t1), s.e, s.f, s.g⟩

/-- Compress one 64-byte block into the running hash value. -/
def compressBlock (s : Digest8) (block : List Nat) : Digest8 :=
  let t := (K256.zip (msgSchedule block)).foldl compressStep s
  ⟨w32 (s.a + t.a), w32 (s.b + t.b), w32 (s.c + t.c), w32 (s.d + t.d), w32 (s.e + t.e),
   w32 (s.f + t.f), w32 (s.g + t.g), w32 (s.h + t.h)⟩

/-- Big-endian 8-byte encoding of a 64-bit length. -/
def beBytes8 (n : Nat) : List Nat :=
  [n / 72057594037927936 % 256, n / 281474976710656 % 256, n / 1099511627776 % 256,
   n / 4294967296 % 256, n / 16777216 % 256, n / 65536 % 256, n / 256 % 256, n % 256]

/-- SHA-256 message padding: `0x80`, zeros, and the 64-bit bit length. -/
def sha256pad (msg : List Nat) : List Nat :=
  msg ++ [128] ++ List.replicate ((64 - (msg.length + 9) % 64) % 64) 0 ++
    beBytes8 (8 * msg.length)

/-- Process a padded message 64 bytes at a time (the fuel bounds the number
of steps and always suffices). -/
def sha256loop : Nat → Digest8 → List Nat → Digest8
  | _, s, [] => s
  | 0, s, _ => s
  | fuel + 1, s, l => sha256loop fuel (compressBlock s (l.take 64)) (l.drop 64)

/-- Big-endian bytes of one 32-bit word. -/
def wordBytes (w : Nat) : List Nat := [w / 16777216 % 256, w / 65536 % 256, w / 256 % 256, w % 256]

/-- Modelled from the spec: the external SHA-256 capability (the `sha2`
crate's `Sha256::digest`), as standard FIPS 180-4 SHA-256 over byte
sequences; bytes are `Nat` values below 256. -/
def sha256 (msg : List Nat) : List Nat :=
  let padded := sha256pad msg
  let s := sha256loop padded.length initH padded
  ([s.a, s.b, s.c, s.d, s.e, s.f, s.g, s.h].map wordBytes).flatten

/-! ## base64 (modelled external capability: the `base64` crate) -/

/-- The standard base64 alphabet. -/
def b64alphabet : List Char :=
  "ABCDEFGHIJKLMNOPQRSTUVWXYZabcdefghijklmnopqrstuvwxyz0123456789+/".toList

/-- The character of one six-bit group. -/
def b64char (n : Nat) : Char := b64alphabet.getD n 'A'

/-- The six-bit value of one character, `none` outside the alphabet. -/
def b64index (c : Char) : Option Nat := b64alphabet.findIdx? fun d => d == c

/-- Encode bytes three at a time, padding the final group with `=`. -/
def base64encodeGo : List Nat → List Char
  | [] => []
  | [b0] => [b64char (b0 / 4), b64char (b0 % 4 * 16), '=', '=']
  | [b0, b1] => [b64char (b0 / 4), b64char (b0 % 4 * 16 + b1 / 16), b64char (b1 % 16 * 4), '=']
  | b0 :: b1 :: b2 :: rest =>
      b64char (b0 / 4) :: b64char (b0 % 4 * 16 + b1 / 16) ::
        b64char (b1 % 16 * 4 + b2 / 64) :: b64char (b2 % 64) :: base64encodeGo rest

/-- Modelled from the spec: the external base64 encoder (`base64::encode`). -/
def base64encode (bytes : List Nat) : String := String.mk (base64encodeGo bytes)

/-- Decode characters four at a time, validating alphabet membership,
padding placement and zero trailing bits. -/
def base64decodeGo : List Char → Option (List Nat)
  | [] => some []
  | c0 :: c1 :: c2 :: c3 :: rest =>
    match b64index c0, b64index c1 with
    | some s0, some s1 =>
      if c2 = '=' then
        if c3 = '=' ∧ rest = [] then
          if s1 % 16 = 0 then some [s0 * 4 + s1 / 16] else none
        else none
      else
        match b64index c2 with
        | some s2 =>
          if c3 = '=' then
            if rest = [] then
              if s2 % 4 = 0 then some [s0 * 4 + s1 / 16, s1 % 16 * 16 + s2 / 4] else none
            else none
          else
            match b64index c3, base64decodeGo rest with
            | some s3, some bs =>
                some ((s0 * 4 + s1 / 16) :: (s1 % 16 * 16 + s2 / 4) :: (s2 % 4 * 64 + s3) :: bs)
            | _, _ => none
        | none => none
    | _, _ => none
  | _ => none

/-- Modelled from the spec: the external base64 decoder (`base64::decode`),
failing on input that is not well-formed base64. -/
def base64decode (s : String) : Option (List Nat) := base64decodeGo s.toList

/-! ## Preimage normalization and the reported digest (src/bin/hash.rs,
`generate_proof`) -/

/-- The copy loop of `generate_proof`: write the incoming bytes into the
zero-filled 80-byte buffer, breaking at index 80. -/
def copyTrunc (acc : List Nat) (i : Nat) : List Nat → List Nat
  | [] => acc
  | b :: rest => if i = 80 then acc else copyTrunc (acc.set i b) (i + 1) rest

/-- Translation of the `preimage_truncated` construction in
`generate_proof`: start from `[0u8; 80]` and copy at most 80 bytes in. -/
def truncate80 (preimage : List Nat) : List Nat := copyTrunc (List.replicate 80 0) 0 preimage

/-- Translation of the digest report in `generate_proof`:
`base64::encode(Sha256::digest(&preimage_truncated))`. -/
def generate_proof_digest (preimage : List Nat) : String :=
  base64encode (sha256 (truncate80 preimage))

/-! ## Verification-side public inputs (src/bin/hash.rs, `verify_proof`) -/

/-- The BLS12-381 scalar-field modulus (`pairing::bls12_381::Fr`). -/
def frModulus : Nat := 0x73eda753299d7d483339d80809a1d80553bda402fffe5bfeffffffff00000001

/-- The scalar field of BLS12-381. -/
abbrev Fr := ZMod frModulus

/-- Modelled from the spec: the external `multipack::bytes_to_bits_le`
capability — little-endian bit decomposition, least-significant bit first
within each byte. -/
def bytes_to_bits_le (bytes : List Nat) : List Bool :=
  (bytes.map fun v => (List.range 8).map fun i => decide ((v >>> i) &&& 1 = 1)).flatten

/-- Accumulate one chunk of bits into a field element: add the running
power-of-two coefficient for every set bit. -/
def packChunkGo : List Bool → Fr → Fr → Fr
  | [], cur, _ => cur
  | b :: rest, cur, coeff => packChunkGo rest (if b then cur + coeff else cur) (coeff + coeff)

/-- Modelled from the spec: the external `multipack::compute_multipacking`
capability — chunk the bits by `Fr::CAPACITY = 254` and pack every chunk
into one field element. -/
def compute_multipacking (bits : List Bool) : List Fr :=
  (chunksOf 254 bits).map fun c => packChunkGo c 0 1

/-- Translation of the public-input computation in `verify_proof`
(src/bin/hash.rs): base64-decode the statement string, hash the decoded
bytes once with SHA-256, decompose into little-endian bits and multipack;
a decode failure aborts. -/
def verify_public_inputs (hash : String) : Option (List Fr) :=
  match base64decode hash with
  | none => none
  | some bytes => some (compute_multipacking (bytes_to_bits_le (sha256 bytes)))

/-- `verify_proof` hands exactly the computed vector to the external
verification routine. -/
def verify_proof_run (extVerify : List Fr → Bool) (hash : String) : Option Bool :=
  match verify_public_inputs hash with
  | none => none
  | some inputs => some (extVerify inputs)

/-! ## Setup artifact persistence (src/bin/hash.rs, `generate_params`) -/

/-- The on-disk setup artifacts (spec §4.5): the parameters file and the
verifying-key file, each absent or holding a (parsed) value. -/
structure SetupStore (P V : Type) where
  params : Option P
  vk : Option V
deriving DecidableEq

/-- Translation of `generate_params` (src/bin/hash.rs).  `vkOf` is the
verifying-key projection (`params.vk`); `fresh` is the parameters produced
by the trusted-setup run (`generate_random_parameters`).  When the params
file opens and the vk file exists, return early; when only the params file
exists, write the derived vk — and then fall through to the generation
path, which overwrites both files. -/
def generate_params {P V : Type} (vkOf : P → V) (fresh : P) (s : SetupStore P V) :
    SetupStore P V :=
  match s.params with
  | some p =>
    if s.vk.isSome then s
    else
      let s1 : SetupStore P V := ⟨s.params, some (vkOf p)⟩
      { s1 with params := some fresh, vk := some (vkOf fresh) }
  | none => ⟨some fresh, some (vkOf fresh)⟩

/-- A fixed stand-in for the external SHA-256 gadget, used to instantiate
gadget-level statements at a concrete input. -/
def shaStub : List Bool → List Bool := fun _ => List.replicate 256 true

/-! ## Helper lemmas -/

/-- `get_constant` equals the natural-number cast. -/
theorem get_constant_eq_natCast (F : Type) [AddMonoidWithOne F] (n : Nat) :
    get_constant F n = (n : F) := by
  induction n with
  | zero => simp [get_constant]
  | succ k ih => simp [get_constant, ih]

theorem get_constant_five (F : Type) [AddMonoidWithOne F] : get_constant F 5 = (5 : F) := by
  rw [get_constant_eq_natCast]
  norm_num

/-! ## Claim C7 -/

/-- Claim C7: the field-constant helper is additive — `helper(a) + helper(b)
= helper(a + b)` under the field's addition — and `helper(0)` is the
additive identity. -/
theorem get_constant_additive (F : Type) [Field F] (a b : Nat) :
    get_constant F (a + b) = get_constant F a + get_constant F b ∧
    get_constant F 0 = (0 : F) := by
  refine ⟨?_, rfl⟩
  simp [get_constant_eq_natCast]

/-! ## Claim C3 -/

/-- Claim C3: synthesis of the assigned cube circuit allocates the private
`z1 = x*x` and `z2 = z1*x` with constraints `x*x = z1` and `z1*x = z2`,
computes `c = 5` with the field-constant helper, allocates the single
public `y` with constraint `(z2 + x + c)*1 = y`, and the assigned public
input equals `x^3 + x + 5`. -/
theorem cube_synthesize_assigned (F : Type) [Field F] (x : F) :
    cubeSynthesize (provingOps F) (some x) (initProving F) =
      .ok ⟨cubeShape F, [1, x ^ 3 + x + 5], [x, x * x, x * x * x]⟩ ∧
    get_constant F 5 = (5 : F) := by
  refine ⟨?_, get_constant_five F⟩
  simp [cubeSynthesize, provingOps, initProving, initShape, okOr, z2ValStep, yProvider,
    liftSynth, cubeShape, cubeConstraints, bind, Except.bind, pure, Except.pure,
    get_constant_five]
  ring

/-! ## Claim C9 -/

/-- Claim C9: synthesis of the unassigned cube circuit succeeds against the
setup-mode constraint system (which never invokes value providers), and the
shape it produces — allocation counts and the enforced constraints — equals
the shape produced by proving-mode synthesis with any witness. -/
theorem cube_setup_prove_same_shape (F : Type) [Field F] :
    cubeSynthesize (shapeOps F) none (initShape F) = .ok (cubeShape F) ∧
    ∀ x : F, (cubeSynthesize (provingOps F) (some x) (initProving F)).map Proving.shape =
      .ok (cubeShape F) := by
  constructor
  · simp only [cubeSynthesize, shapeOps, initShape, okOr, z2ValStep, yProvider, liftSynth,
      cubeShape, cubeConstraints, Option.map_none, bind, Except.bind, pure, Except.pure]
    rfl
  · intro x
    simp [cubeSynthesize, provingOps, initProving, initShape, okOr, z2ValStep, yProvider,
      liftSynth, cubeShape, cubeConstraints, bind, Except.bind, pure, Except.pure, Except.map]

/-! ## Claim C10 -/

/-- Claim C10: the unguarded `x_val.unwrap()` inside the z2 computation
never panics: the mapped closure runs only when `z1_val` is present,
`z1_val` is present exactly when `x_val` is, and synthesis in either mode
never ends in a panic, for every witness state. -/
theorem cube_synthesize_panic_free (F : Type) [Field F] (x_val : Option F) :
    (x_val.map fun e => e * e).isSome = x_val.isSome ∧
    z2ValStep (x_val.map fun e => e * e) x_val ≠ .error .panicked ∧
    cubeSynthesize (shapeOps F) x_val (initShape F) ≠ .error .panicked ∧
    cubeSynthesize (provingOps F) x_val (initProving F) ≠ .error .panicked := by
  cases x_val with
  | none =>
    refine ⟨rfl, by simp [z2ValStep], ?_, ?_⟩
    · simp [cubeSynthesize, shapeOps, initShape, okOr, z2ValStep, yProvider, liftSynth,
        bind, Except.bind, pure, Except.pure]
    · simp [cubeSynthesize, provingOps, initProving, initShape, okOr, z2ValStep, yProvider,
        liftSynth, bind, Except.bind, pure, Except.pure]
  | some x =>
    refine ⟨rfl, by simp [z2ValStep], ?_, ?_⟩
    · simp [cubeSynthesize, shapeOps, initShape, okOr, z2ValStep, yProvider, liftSynth,
        bind, Except.bind, pure, Except.pure]
    · simp [cubeSynthesize, provingOps, initProving, initShape, okOr, z2ValStep, yProvider,
        liftSynth, bind, Except.bind, pure, Except.pure]

/-! ## Chunking lemmas -/

theorem chunksOf_nil {α : Type} (n : Nat) : chunksOf n ([] : List α) = [] := by
  simp [chunksOf]

theorem chunksOf_cons {α : Type} (n : Nat) (hn : n ≠ 0) (x : α) (xs : List α) :
    chunksOf n (x :: xs) = (x :: xs).take n :: chunksOf n ((x :: xs).drop n) := by
  obtain ⟨m, rfl⟩ := Nat.exists_eq_succ_of_ne_zero hn
  rw [chunksOf]
  simp

theorem chunksOf_flatten_aux {α : Type} (n : Nat) (hn : n ≠ 0) :
    ∀ N : Nat, ∀ l : List α, l.length ≤ N → (chunksOf n l).flatten = l := by
  intro N
  induction N with
  | zero =>
    intro l hl
    have : l = [] := List.length_eq_zero.mp (Nat.le_zero.mp hl)
    subst this
    simp [chunksOf_nil]
  | succ N ih =>
    intro l hl
    cases l with
    | nil => simp [chunksOf_nil]
    | cons x xs =>
      have h1 : ((x :: xs).drop n).length ≤ N := by
        rw [List.length_drop]
        simp only [List.length_cons] at hl ⊢
        omega
      rw [chunksOf_cons n hn, List.flatten_cons, ih ((x :: xs).drop n) h1,
        List.take_append_drop]

/-- Flattening the chunks gives back the list. -/
theorem chunksOf_flatten {α : Type} (n : Nat) (hn : n ≠ 0) (l : List α) :
    (chunksOf n l).flatten = l :=
  chunksOf_flatten_aux n hn l.length l le_rfl

/-- `revEach8` preserves length. -/
theorem revEach8_length {α : Type} (l : List α) : (revEach8 l).length = l.length := by
  have h8 : (8 : Nat) ≠ 0 := by norm_num
  calc (revEach8 l).length
      = (((chunksOf 8 l).map List.reverse).map List.length).sum := by
        simp [revEach8, List.length_flatten]
    _ = ((chunksOf 8 l).map List.length).sum := by
        simp [List.map_map, Function.comp_def]
    _ = (chunksOf 8 l).flatten.length := by simp [List.length_flatten]
    _ = l.length := by rw [chunksOf_flatten 8 h8]

theorem revEach8_eq_rbb_aux :
    ∀ N : Nat, ∀ l : List Bool, l.length ≤ N → 8 ∣ l.length →
      revEach8 l = reverseBitsInBytes l := by
  intro N
  induction N with
  | zero =>
    intro l hl _
    have : l = [] := List.length_eq_zero.mp (Nat.le_zero.mp hl)
    subst this
    simp [revEach8, chunksOf_nil, reverseBitsInBytes]
  | succ N ih =>
    intro l hl hdvd
    rcases l with _ | ⟨b0, _ | ⟨b1, _ | ⟨b2, _ | ⟨b3, _ | ⟨b4, _ | ⟨b5, _ | ⟨b6, _ | ⟨b7, rest⟩⟩⟩⟩⟩⟩⟩⟩
    · simp [revEach8, chunksOf_nil, reverseBitsInBytes]
    all_goals (simp only [List.length_cons, List.length_nil] at hdvd hl)
    · omega
    · omega
    · omega
    · omega
    · omega
    · omega
    · omega
    have hrest : revEach8 rest = reverseBitsInBytes rest := by
      refine ih rest (by omega) (by omega)
    rw [reverseBitsInBytes]
    unfold revEach8
    rw [chunksOf_cons 8 (by norm_num)]
    simp only [List.take_succ_cons, List.take_zero, List.drop_succ_cons, List.drop_zero,
      List.map_cons, List.reverse_cons, List.reverse_nil, List.flatten_cons]
    simp [← hrest, revEach8]

/-- On a list whose length is a multiple of 8, the source's
`chunks(8).map(rev).flatten` is the specification's reverse-bits-in-bytes
transformation. -/
theorem revEach8_eq_rbb (l : List Bool) (h : 8 ∣ l.length) :
    revEach8 l = reverseBitsInBytes l :=
  revEach8_eq_rbb_aux l.length l le_rfl h

/-! ## Claim C4 -/

/-- Claim C4: on an input whose length is a positive multiple of 8, the
double-hash gadget reverses bit order within every 8-bit group of the
input, applies the hash gadget, feeds its output unchanged into the hash
gadget again, reverses bit order within every 8-bit group of the result,
and returns exactly 256 bits. -/
theorem sha256d_double_reversal (sha : List Bool → List Bool)
    (hsha : ∀ l, (sha l).length = 256) (data : List Bool) (k : Nat)
    (hk : 0 < k) (hdata : data.length = 8 * k) :
    sha256d sha data = reverseBitsInBytes (sha (sha (reverseBitsInBytes data))) ∧
    (sha256d sha data).length = 256 := by
  have h1 : revEach8 data = reverseBitsInBytes data := revEach8_eq_rbb data ⟨k, hdata⟩
  have h2 : revEach8 (sha (sha (reverseBitsInBytes data))) =
      reverseBitsInBytes (sha (sha (reverseBitsInBytes data))) := by
    refine revEach8_eq_rbb _ ?_
    rw [hsha]
    norm_num
  constructor
  · rw [sha256d, h1, h2]
  · rw [sha256d, h1, revEach8_length, hsha]

/-- Claim C4 at a concrete input: a stub 256-bit hash gadget and an 8-bit
input. -/
theorem sha256d_double_reversal_checked :
    sha256d shaStub (List.replicate 8 false) =
      reverseBitsInBytes (shaStub (shaStub (reverseBitsInBytes (List.replicate 8 false)))) ∧
    (sha256d shaStub (List.replicate 8 false)).length = 256 :=
  sha256d_double_reversal shaStub (fun l => by simp only [shaStub, List.length_replicate])
    (List.replicate 8 false) 1 (by norm_num) (by norm_num)

/-! ## Bit-decomposition lemmas -/

/-- Length of a flattened map with constant inner length. -/
theorem length_flatten_map {α β : Type} (f : α → List β) (k : Nat)
    (hf : ∀ a, (f a).length = k) (l : List α) : ((l.map f).flatten).length = k * l.length := by
  induction l with
  | nil => simp
  | cons a t ih =>
    simp only [List.map_cons, List.flatten_cons, List.length_append, hf, ih,
      List.length_cons]
    ring

/-- The source's `(byte >> i) & 1u8 == 1u8` test is the i-th
least-significant bit. -/
theorem shift_and_one_eq_testBit (b i : Nat) :
    decide ((b >>> i) &&& 1 = 1) = b.testBit i := by
  rw [Nat.testBit_to_div_mod, Nat.and_one_is_mod, Nat.shiftRight_eq_div_pow]

/-! ## Claim C8 -/

/-- Claim C8: with an 80-byte witness present, the hash circuit decomposes
it into exactly 640 boolean values, least-significant bit first within each
byte; with the witness absent it produces 640 unassigned values; either way
exactly 640 bit allocations are performed. -/
theorem hash_bit_decomposition (p : List Nat) (hp : p.length = 80) :
    bit_values (some p) =
      (p.map fun byte => (List.range 8).map fun i => some (byte.testBit i)).flatten ∧
    hashCircuitBitAllocs (some p) = 640 ∧
    bit_values none = List.replicate 640 none ∧
    hashCircuitBitAllocs none = 640 := by
  refine ⟨?_, ?_, by rw [bit_values], by rw [hashCircuitBitAllocs, bit_values, List.length_replicate]⟩
  · rw [bit_values, List.map_flatten, List.map_map]
    refine congrArg List.flatten (List.map_congr_left fun byte _ => ?_)
    simp [Function.comp_def, List.map_map, shift_and_one_eq_testBit]
  · rw [hashCircuitBitAllocs, bit_values, List.length_map,
      length_flatten_map _ 8 (by simp) p, hp]

/-- Claim C8 at a concrete 80-byte witness. -/
theorem hash_bit_decomposition_checked :
    bit_values (some (List.range 80)) =
      ((List.range 80).map fun byte => (List.range 8).map fun i => some (byte.testBit i)).flatten ∧
    hashCircuitBitAllocs (some (List.range 80)) = 640 ∧
    bit_values none = List.replicate 640 none ∧
    hashCircuitBitAllocs none = 640 :=
  hash_bit_decomposition (List.range 80) (by simp)

/-! ## Truncation lemmas -/

/-- The copy loop writes the fitting prefix of `p` over `acc` from index
`i` on and leaves the rest of `acc` unchanged. -/
theorem take_set_succ (l : List Nat) (i : Nat) (b : Nat) (h : i < l.length) :
    (l.set i b).take (i + 1) = l.take i ++ [b] := by
  rw [List.set_eq_take_cons_drop b h, List.take_append_eq_append_take]
  have h1 : (l.take i).length = i := by
    rw [List.length_take]
    omega
  rw [List.take_of_length_le (by omega), h1]
  have h2 : i + 1 - i = 1 := by omega
  rw [h2]
  simp

/-- The copy loop writes the fitting prefix of `p` over `acc` from index
`i` on and leaves the rest of `acc` unchanged. -/
theorem copyTrunc_spec :
    ∀ (p acc : List Nat) (i : Nat), acc.length = 80 → i ≤ 80 →
      copyTrunc acc i p = acc.take i ++ p.take (80 - i) ++ acc.drop (i + p.length) := by
  intro p
  induction p with
  | nil =>
    intro acc i hacc hi
    simp [copyTrunc, List.take_append_drop]
  | cons b rest ih =>
    intro acc i hacc hi
    by_cases hi80 : i = 80
    · subst hi80
      have e1 : acc.take 80 = acc := List.take_of_length_le (by omega)
      have e2 : acc.drop (80 + (b :: rest).length) = [] := by
        apply List.drop_eq_nil_of_le
        simp only [List.length_cons]
        omega
      simp [copyTrunc, e1, e2]
      omega
    · have hilt : i < 80 := by omega
      have hstep : copyTrunc acc i (b :: rest) = copyTrunc (acc.set i b) (i + 1) rest := by
        simp [copyTrunc, hi80]
      rw [hstep, ih (acc.set i b) (i + 1) (by simp [hacc]) (by omega),
        take_set_succ acc i b (by omega), List.drop_set_of_lt b acc (by omega)]
      have e1 : 80 - i = (80 - (i + 1)) + 1 := by omega
      rw [e1, List.take_succ_cons]
      have e2 : i + 1 + rest.length = i + (b :: rest).length := by simp; omega
      rw [e2]
      simp [List.append_assoc]

/-! ## Claim C6 -/

/-- The normalized preimage is the 80-byte truncation padded with zeros. -/
theorem truncate80_eq (p : List Nat) :
    truncate80 p = p.take 80 ++ List.replicate (80 - p.length) 0 := by
  have hspec := copyTrunc_spec p (List.replicate 80 0) 0 (by simp) (by omega)
  rw [List.take_zero, List.nil_append, Nat.zero_add, Nat.sub_zero,
    List.drop_replicate] at hspec
  exact hspec

/-- Claim C6: preimage normalization yields exactly 80 bytes — an input
longer than 80 bytes is truncated to its first 80 bytes, a shorter input is
zero-filled — and the reported digest is computed over the normalized
80-byte value. -/
theorem preimage_normalization (p : List Nat) :
    (truncate80 p).length = 80 ∧
    (80 ≤ p.length → truncate80 p = p.take 80) ∧
    (p.length ≤ 80 → truncate80 p = p ++ List.replicate (80 - p.length) 0) ∧
    generate_proof_digest p = base64encode (sha256 (truncate80 p)) := by
  refine ⟨?_, ?_, ?_, rfl⟩
  · rw [truncate80_eq, List.length_append, List.length_take, List.length_replicate]
    omega
  · intro h80
    rw [truncate80_eq, Nat.sub_eq_zero_of_le h80]
    simp
  · intro h80
    rw [truncate80_eq, List.take_of_length_le h80]

/-! ## base64 lemmas -/

/-- Decoding inverts the encoder's alphabet lookup on six-bit values. -/
theorem b64index_b64char : ∀ s : Nat, s < 64 → b64index (b64char s) = some s := by decide

/-- The alphabet never yields the padding character. -/
theorem b64char_ne_pad : ∀ s : Nat, s < 64 → ¬ b64char s = '=' := by decide

/-- Decoding inverts encoding on byte sequences. -/
theorem base64decodeGo_encodeGo :
    ∀ bytes : List Nat, (∀ b ∈ bytes, b < 256) →
      base64decodeGo (base64encodeGo bytes) = some bytes := by
  intro bytes
  induction bytes using base64encodeGo.induct with
  | case1 =>
    intro _
    simp [base64encodeGo, base64decodeGo]
  | case2 b0 =>
    intro h
    have hb0 : b0 < 256 := h b0 (by simp)
    have hs0 : b0 / 4 < 64 := by omega
    have hs1 : b0 % 4 * 16 < 64 := by omega
    simp only [base64encodeGo, base64decodeGo, b64index_b64char _ hs0, b64index_b64char _ hs1]
    have hz : b0 % 4 * 16 % 16 = 0 := by omega
    simp [hz]
    omega
  | case3 b0 b1 =>
    intro h
    have hb0 : b0 < 256 := h b0 (by simp)
    have hb1 : b1 < 256 := h b1 (by simp)
    have hs0 : b0 / 4 < 64 := by omega
    have hs1 : b0 % 4 * 16 + b1 / 16 < 64 := by omega
    have hs2 : b1 % 16 * 4 < 64 := by omega
    simp only [base64encodeGo, base64decodeGo, b64index_b64char _ hs0, b64index_b64char _ hs1,
      b64index_b64char _ hs2]
    rw [if_neg (b64char_ne_pad _ hs2)]
    have hz : b1 % 16 * 4 % 4 = 0 := by omega
    simp [hz]
    constructor
    all_goals omega
  | case4 b0 b1 b2 rest ih =>
    intro h
    have hb0 : b0 < 256 := h b0 (by simp)
    have hb1 : b1 < 256 := h b1 (by simp)
    have hb2 : b2 < 256 := h b2 (by simp)
    have hrest : base64decodeGo (base64encodeGo rest) = some rest := by
      refine ih fun b hb => h b (by simp [hb])
    have hs0 : b0 / 4 < 64 := by omega
    have hs1 : b0 % 4 * 16 + b1 / 16 < 64 := by omega
    have hs2 : b1 % 16 * 4 + b2 / 64 < 64 := by omega
    have hs3 : b2 % 64 < 64 := by omega
    simp only [base64encodeGo, base64decodeGo, b64index_b64char _ hs0, b64index_b64char _ hs1,
      b64index_b64char _ hs2, b64index_b64char _ hs3, hrest]
    rw [if_neg (b64char_ne_pad _ hs2), if_neg (b64char_ne_pad _ hs3)]
    simp
    refine ⟨by omega, by omega, by omega⟩

/-- Decoding inverts encoding. -/
theorem base64_roundtrip (bytes : List Nat) (h : ∀ b ∈ bytes, b < 256) :
    base64decode (base64encode bytes) = some bytes := by
  rw [base64decode, base64encode]
  exact base64decodeGo_encodeGo bytes h

/-! ## SHA-256 structural lemmas -/

/-- A SHA-256 digest is exactly 32 bytes. -/
theorem sha256_length (msg : List Nat) : (sha256 msg).length = 32 := by
  simp [sha256, wordBytes]

/-- Every byte of a SHA-256 digest is below 256. -/
theorem sha256_bytes_lt (msg : List Nat) : ∀ b ∈ sha256 msg, b < 256 := by
  intro b hb
  simp only [sha256, List.mem_flatten, List.mem_map, List.mem_cons, List.not_mem_nil,
    or_false, wordBytes] at hb
  obtain ⟨l, ⟨w, hw, rfl⟩, hbl⟩ := hb
  simp only [List.mem_cons, List.not_mem_nil, or_false] at hbl
  rcases hbl with rfl | rfl | rfl | rfl
  all_goals omega

/-- Little-endian bit decomposition yields eight bits per byte. -/
theorem bytes_to_bits_le_length (bytes : List Nat) :
    (bytes_to_bits_le bytes).length = 8 * bytes.length := by
  rw [bytes_to_bits_le, length_flatten_map _ 8 (by simp) bytes]

/-- A 256-bit sequence packs into exactly two field elements at capacity
254. -/
theorem multipack_length_two (bits : List Bool) (h : bits.length = 256) :
    (compute_multipacking bits).length = 2 := by
  rcases bits with _ | ⟨x, xs⟩
  · simp at h
  rw [compute_multipacking, chunksOf_cons 254 (by norm_num)]
  have h2 : (x :: xs).drop 254 = ((x :: xs).drop 254).head! :: ((x :: xs).drop 254).tail := by
    have hlen : ((x :: xs).drop 254).length = 2 := by
      rw [List.length_drop, h]
    cases hdrop : (x :: xs).drop 254 with
    | nil => rw [hdrop] at hlen; simp at hlen
    | cons y ys => simp
  rw [h2, chunksOf_cons 254 (by norm_num)]
  have h3 : (((x :: xs).drop 254).head! :: ((x :: xs).drop 254).tail).drop 254 = [] := by
    apply List.drop_eq_nil_of_le
    have hlen : ((x :: xs).drop 254).length = 2 := by
      rw [List.length_drop, h]
    simp only [List.length_cons, List.length_tail, hlen]
    omega
  rw [h3, chunksOf_nil]
  simp

/-! ## Claim C2 -/

set_option maxRecDepth 100000 in
/-- Claim C2 counterexample: at the empty preimage file, the reported
digest — the base64 of the single SHA-256 of the normalized preimage — is
not the base64 of the double hash. -/
theorem prove_digest_not_double_hash :
    generate_proof_digest [] ≠ base64encode (sha256 (sha256 (truncate80 []))) := by decide

/-- Claim C2 (amended): Prove reports the base64 encoding of the single
hash SHA-256(p) of the normalized 80-byte preimage p; decoded and
re-hashed as Verify does, that value packs to exactly the public input of
the double hash SHA-256(SHA-256(p)). -/
theorem prove_reports_single_hash (p : List Nat) :
    generate_proof_digest p = base64encode (sha256 (truncate80 p)) ∧
    verify_public_inputs (generate_proof_digest p) =
      some (compute_multipacking (bytes_to_bits_le (sha256 (sha256 (truncate80 p))))) := by
  refine ⟨rfl, ?_⟩
  rw [generate_proof_digest, verify_public_inputs,
    base64_roundtrip (sha256 (truncate80 p)) (sha256_bytes_lt _)]

/-- Claim C2 (amended) at a concrete input. -/
theorem prove_reports_single_hash_checked :
    generate_proof_digest [0] = base64encode (sha256 (truncate80 [0])) ∧
    verify_public_inputs (generate_proof_digest [0]) =
      some (compute_multipacking (bytes_to_bits_le (sha256 (sha256 (truncate80 [0]))))) :=
  prove_reports_single_hash [0]

/-! ## Claim C5 -/

/-- Claim C5: for a well-formed base64 statement string, Verify computes
the public-input vector by decoding, re-hashing once with SHA-256,
decomposing into little-endian bits and multipacking — 256 bits packed
into two field elements — and hands exactly that vector to the external
verification routine. -/
theorem verify_decode_rehash_pack (extVerify : List Fr → Bool) (s : String)
    (bytes : List Nat) (h : base64decode s = some bytes) :
    verify_public_inputs s = some (compute_multipacking (bytes_to_bits_le (sha256 bytes))) ∧
    verify_proof_run extVerify s =
      some (extVerify (compute_multipacking (bytes_to_bits_le (sha256 bytes)))) ∧
    (bytes_to_bits_le (sha256 bytes)).length = 256 ∧
    (compute_multipacking (bytes_to_bits_le (sha256 bytes))).length = 2 := by
  have h1 : verify_public_inputs s =
      some (compute_multipacking (bytes_to_bits_le (sha256 bytes))) := by
    rw [verify_public_inputs, h]
  have h2 : (bytes_to_bits_le (sha256 bytes)).length = 256 := by
    rw [bytes_to_bits_le_length, sha256_length]
  exact ⟨h1, by rw [verify_proof_run, h1], h2, multipack_length_two _ h2⟩

/-- Claim C5 at a concrete statement string. -/
theorem verify_decode_rehash_pack_checked :
    verify_public_inputs "AA==" = some (compute_multipacking (bytes_to_bits_le (sha256 [0]))) ∧
    verify_proof_run (fun _ => true) "AA==" =
      some ((fun _ => true) (compute_multipacking (bytes_to_bits_le (sha256 [0])))) ∧
    (bytes_to_bits_le (sha256 [0])).length = 256 ∧
    (compute_multipacking (bytes_to_bits_le (sha256 [0]))).length = 2 :=
  verify_decode_rehash_pack (fun _ => true) "AA==" [0] (by decide)

/-! ## Claim C1 -/

/-- Claim C1: `generate_params` with the parameters file present (holding
`0`) and the verifying key absent re-runs trusted setup — it overwrites
the parameters file with the fresh parameters `1`, so the file is not left
byte-identical; with both files present it is a no-op. -/
theorem generate_params_reruns_setup :
    generate_params (fun p : Nat => p) 1 ⟨some 0, none⟩ = SetupStore.mk (some 1) (some 1) ∧
    (generate_params (fun p : Nat => p) 1 ⟨some 0, none⟩).params ≠ some 0 ∧
    generate_params (fun p : Nat => p) 1 ⟨some 0, some 5⟩ = SetupStore.mk (some 0) (some 5) := by
  decide

/-- Claim C6 at concrete inputs: a 100-byte input is truncated, the
reported digest is computed over the normalized value. -/
theorem preimage_normalization_checked :
    (truncate80 (List.range 100)).length = 80 ∧
    truncate80 (List.range 100) = (List.range 100).take 80 ∧
    generate_proof_digest (List.range 100) =
      base64encode (sha256 (truncate80 (List.range 100))) := by
  obtain ⟨h1, h2, -, h4⟩ := preimage_normalization (List.range 100)
  exact ⟨h1, h2 (by simp), h4⟩
